import Mathlib

/-!
Shallow embedding of the verifying light-client core: canonical
serialization and hashing of ledger records (types/src/ledger_info.rs,
consensus/src/chained_bft/safety/vote_msg.rs) and the trusted-state
machinery of the verifying client
(sdk/client/src/verifying_client/client.rs).

Machine integers are modelled as Nat; the little-endian encoders take the
value modulo 2^64 by construction. Fallible operations return Option or
Except. Code that the client calls but that lives outside the embedded
files (the canonical-serialization primitives, the trusted-state store,
the batch helpers) is either modelled from the spec (marked in its doc
comment) or passed in as an explicit function parameter.
-/

/-- Little-endian byte list of fixed width: `leBytes k n` is the low `k`
bytes of `n`, least significant first (so the value is taken mod 256^k). -/
def leBytes : Nat → Nat → List Nat
  | 0, _ => []
  | k + 1, n => n % 256 :: leBytes k (n / 256)

/-- Modelled from the spec: `encode_u64` of the canonical serializer
(canonical_serialization crate, outside src/): a u64 as 8 bytes
little-endian. -/
def encode_u64 (n : Nat) : List Nat := leBytes 8 n

/-- Modelled from the spec: the length prefix used by `encode_bytes`;
the spec fixes the encoding as length-prefixed little-endian, and we model
the prefix as 4 bytes little-endian. -/
def encode_u32 (n : Nat) : List Nat := leBytes 4 n

/-- Modelled from the spec: `encode_bytes` of the canonical serializer:
a length prefix followed by the raw bytes. -/
def encode_bytes (b : List Nat) : List Nat := encode_u32 b.length ++ b

/-- `encode_raw_bytes` of the canonical serializer: the raw bytes with no
length prefix. -/
def encode_raw_bytes (b : List Nat) : List Nat := b

/-- A 32-byte cryptographic digest (`HashValue` in the source): a byte
list of length exactly 32. -/
def HashValue : Type := { l : List Nat // l.length = 32 }

instance : DecidableEq HashValue := fun a b =>
  decidable_of_iff (a.val = b.val) Subtype.ext_iff.symm

/-- `HashValue::as_ref`: the underlying 32 bytes. -/
def HashValue.as_ref (h : HashValue) : List Nat := h.val

/-- `HashValue::from_slice`: succeeds exactly on 32-byte inputs. -/
def HashValue.from_slice (l : List Nat) : Option HashValue :=
  if h : l.length = 32 then some ⟨l, h⟩ else none

/-- A concrete all-equal-bytes digest, used for concrete evaluations. -/
def sampleHash (b : Nat) : HashValue :=
  ⟨List.replicate 32 b, List.length_replicate 32 b⟩

/-- The domain-separated hasher of the design: a fixed domain tag per
record type is pre-absorbed before the canonical bytes. The concrete
compression function is irrelevant to the claims, so definitions that
hash take the hasher as an explicit function parameter. -/
def Hasher : Type := String → List Nat → HashValue

/-- `LedgerInfo` (types/src/ledger_info.rs). -/
structure LedgerInfo where
  version : Nat
  transaction_accumulator_hash : HashValue
  consensus_data_hash : HashValue
  consensus_block_id : HashValue
  epoch_num : Nat
  timestamp_usecs : Nat
deriving DecidableEq

/-- `CanonicalSerialize for LedgerInfo` (ledger_info.rs): u64 version,
then length-prefixed accumulator hash, consensus data hash and consensus
block id, then u64 epoch_num and u64 timestamp_usecs. -/
def LedgerInfo.serialize (li : LedgerInfo) : List Nat :=
  encode_u64 li.version ++
    encode_bytes li.transaction_accumulator_hash.as_ref ++
    encode_bytes li.consensus_data_hash.as_ref ++
    encode_bytes li.consensus_block_id.as_ref ++
    encode_u64 li.epoch_num ++
    encode_u64 li.timestamp_usecs

/-- `CryptoHash for LedgerInfo`: the domain-tagged hash of the canonical
serialization, domain tag "LedgerInfo". -/
def LedgerInfo.hash (li : LedgerInfo) (h : Hasher) : HashValue :=
  h "LedgerInfo" li.serialize

/-- `LedgerInfo::is_zero`: a ledger info is nominal if its version is 0. -/
def LedgerInfo.is_zero (li : LedgerInfo) : Bool := li.version == 0

/-- The LedgerInfo canonical layout written from the words of the spec:
version u64-LE, then length-prefixed transaction_accumulator_hash, then
length-prefixed consensus_data_hash, then length-prefixed
consensus_block_id, then epoch_num u64-LE, then timestamp_usecs u64-LE.
Stated separately from `LedgerInfo.serialize` so the two can be compared. -/
def ledgerInfoSpecLayout (li : LedgerInfo) : List Nat :=
  leBytes 8 li.version ++
    (encode_u32 li.transaction_accumulator_hash.val.length ++
      li.transaction_accumulator_hash.val) ++
    (encode_u32 li.consensus_data_hash.val.length ++
      li.consensus_data_hash.val) ++
    (encode_u32 li.consensus_block_id.val.length ++
      li.consensus_block_id.val) ++
    leBytes 8 li.epoch_num ++
    leBytes 8 li.timestamp_usecs

/-- C7: for every LedgerInfo, hashing is deterministic (equal records have
equal hashes) and the hash is the domain-separated hash, under tag
"LedgerInfo", of exactly the spec canonical byte layout. -/
theorem ledger_info_hash_deterministic_and_canonical
    (h : Hasher) (li li2 : LedgerInfo) :
    (li = li2 → li.hash h = li2.hash h) ∧
      li.hash h = h "LedgerInfo" (ledgerInfoSpecLayout li) := by
  constructor
  · intro e
    rw [e]
  · unfold LedgerInfo.hash LedgerInfo.serialize ledgerInfoSpecLayout
      encode_bytes encode_u64 HashValue.as_ref
    rfl

/-- Witness for C7 at a concrete ledger info and hasher. -/
theorem ledger_info_hash_deterministic_and_canonical_witness :
    ({ version := 7, transaction_accumulator_hash := sampleHash 1,
       consensus_data_hash := sampleHash 2, consensus_block_id := sampleHash 3,
       epoch_num := 4, timestamp_usecs := 5 : LedgerInfo }.hash
        (fun _ _ => sampleHash 9) =
      { version := 7, transaction_accumulator_hash := sampleHash 1,
        consensus_data_hash := sampleHash 2, consensus_block_id := sampleHash 3,
        epoch_num := 4, timestamp_usecs := 5 : LedgerInfo }.hash
        (fun _ _ => sampleHash 9)) ∧
    ({ version := 7, transaction_accumulator_hash := sampleHash 1,
       consensus_data_hash := sampleHash 2, consensus_block_id := sampleHash 3,
       epoch_num := 4, timestamp_usecs := 5 : LedgerInfo }.hash
        (fun _ _ => sampleHash 9) =
      (fun (_ : String) (_ : List Nat) => sampleHash 9) "LedgerInfo"
        (ledgerInfoSpecLayout
          { version := 7, transaction_accumulator_hash := sampleHash 1,
            consensus_data_hash := sampleHash 2,
            consensus_block_id := sampleHash 3,
            epoch_num := 4, timestamp_usecs := 5 })) :=
  ⟨(ledger_info_hash_deterministic_and_canonical (fun _ _ => sampleHash 9) _ _).1
      rfl,
    (ledger_info_hash_deterministic_and_canonical (fun _ _ => sampleHash 9) _
      { version := 7, transaction_accumulator_hash := sampleHash 1,
        consensus_data_hash := sampleHash 2, consensus_block_id := sampleHash 3,
        epoch_num := 4, timestamp_usecs := 5 }).2⟩

/-- A validator identifier (`AccountAddress` in the source): modelled as
its raw byte string. -/
abbrev AccountAddress : Type := List Nat

/-- Modelled from the spec: `AccountAddress::try_from` / `from_proto`
(account_address.rs, outside src/) accepts exactly 32-byte inputs. -/
def AccountAddress.from_proto (l : List Nat) : Option AccountAddress :=
  if l.length = 32 then some l else none

/-- A signature, modelled as its raw byte string (the spec seals the
scheme to ed25519, whose signatures are 64 bytes). -/
abbrev Sig : Type := List Nat

/-- Modelled from the spec: `Signature::try_from` of the ed25519 scheme
(outside src/) accepts exactly 64-byte inputs. -/
def Sig.try_from (l : List Nat) : Option Sig :=
  if l.length = 64 then some l else none

/-- `ExecutedState` (consensus state_replication.rs): the id of the state
produced by executing the proposed block, plus its version. -/
structure ExecutedState where
  state_id : HashValue
  version : Nat
deriving DecidableEq

/-- Modelled from the spec: the canonical serialization of
`ExecutedState` (its impl lives in state_replication.rs, outside src/):
state_id as 32 bytes, then version u64-LE. -/
def ExecutedState.serialize (es : ExecutedState) : List Nat :=
  encode_raw_bytes es.state_id.as_ref ++ encode_u64 es.version

/-- `CanonicalSerialize for VoteMsgSerializer` (vote_msg.rs): raw
proposed_block_id bytes, then the executed_state struct, then u64 round. -/
def voteMsgSerialize (proposed_block_id : HashValue)
    (executed_state : ExecutedState) (round : Nat) : List Nat :=
  encode_raw_bytes proposed_block_id.as_ref ++
    executed_state.serialize ++
    encode_u64 round

/-- `VoteMsg::vote_digest` (vote_msg.rs): the domain-tagged hash of the
serialized triple, domain tag "VoteMsg". -/
def voteDigest (h : Hasher) (proposed_block_id : HashValue)
    (executed_state : ExecutedState) (round : Nat) : HashValue :=
  h "VoteMsg" (voteMsgSerialize proposed_block_id executed_state round)

/-- `VoteMsg` (vote_msg.rs). -/
structure VoteMsg where
  proposed_block_id : HashValue
  executed_state : ExecutedState
  round : Nat
  author : AccountAddress
  ledger_info : LedgerInfo
  signature : Sig
deriving DecidableEq

/-- `VoteMsg::new` (vote_msg.rs): overwrite the placeholder ledger info's
consensus_data_hash with the vote digest, sign the resulting ledger
info's hash, and assemble the vote. The signer is passed as a function
parameter (`ValidatorSigner` lives outside src/). -/
def VoteMsg.new (h : Hasher) (sign : HashValue → Sig)
    (proposed_block_id : HashValue) (executed_state : ExecutedState)
    (round : Nat) (author : AccountAddress)
    (ledger_info_placeholder : LedgerInfo) : VoteMsg :=
  let li := { ledger_info_placeholder with
    consensus_data_hash := voteDigest h proposed_block_id executed_state round }
  { proposed_block_id := proposed_block_id
    executed_state := executed_state
    round := round
    author := author
    ledger_info := li
    signature := sign (li.hash h) }

/-- The VoteMsg canonical layout written from the words of the spec:
proposed_block_id as 32 raw bytes, then executed_state (state_id then
version u64-LE), then round u64-LE. Stated separately from
`voteMsgSerialize` so the two can be compared. -/
def voteMsgSpecLayout (proposed_block_id : HashValue)
    (executed_state : ExecutedState) (round : Nat) : List Nat :=
  proposed_block_id.val ++
    (executed_state.state_id.val ++ leBytes 8 executed_state.version) ++
    leBytes 8 round

/-- C6: for every triple (proposed_block_id, executed_state, round), the
consensus_data_hash stored in the LedgerInfo of a vote built by
`VoteMsg::new` is the domain-separated hash, under tag "VoteMsg", of
exactly the spec canonical layout of the triple. -/
theorem vote_msg_new_consensus_data_hash_canonical
    (h : Hasher) (sign : HashValue → Sig) (proposed_block_id : HashValue)
    (executed_state : ExecutedState) (round : Nat) (author : AccountAddress)
    (ledger_info_placeholder : LedgerInfo) :
    (VoteMsg.new h sign proposed_block_id executed_state round author
        ledger_info_placeholder).ledger_info.consensus_data_hash =
      h "VoteMsg" (voteMsgSpecLayout proposed_block_id executed_state round) := by
  unfold VoteMsg.new voteDigest voteMsgSerialize voteMsgSpecLayout
    ExecutedState.serialize encode_raw_bytes encode_u64 HashValue.as_ref
  rfl

/-- A hash map modelled as an association list whose operations keep keys
distinct (matching the HashMap used by the source; iteration order is
immaterial to the claims). -/
abbrev HMap (α β : Type) : Type := List (α × β)

/-- Key membership test of the map model. -/
def hmContains {α β : Type} [DecidableEq α] (m : HMap α β) (k : α) : Bool :=
  m.any (fun p => p.1 = k)

/-- The key list of the map model. -/
def hmKeys {α β : Type} (m : HMap α β) : List α := m.map Prod.fst

/-- `HashMap::insert` semantics: overwrite the value when the key is
present, append a fresh entry otherwise. -/
def hmInsert {α β : Type} [DecidableEq α] (m : HMap α β) (k : α) (v : β) :
    HMap α β :=
  if hmContains m k then m.map (fun p => if p.1 = k then (k, v) else p)
  else m ++ [(k, v)]

/-- `HashMap::entry(k).or_insert(v)` semantics: keep the map unchanged
when the key is present, append a fresh entry otherwise. -/
def hmInsertIfAbsent {α β : Type} [DecidableEq α] (m : HMap α β) (k : α)
    (v : β) : HMap α β :=
  if hmContains m k then m else m ++ [(k, v)]

/-- `LedgerInfoWithSignatures` (ledger_info.rs): a ledger info plus a map
from validator identifier to signature. -/
structure LedgerInfoWithSignatures where
  ledger_info : LedgerInfo
  signatures : HMap AccountAddress Sig
deriving DecidableEq

/-- `LedgerInfoWithSignatures::add_signature` (ledger_info.rs):
`self.signatures.entry(validator).or_insert(signature)`. -/
def LedgerInfoWithSignatures.add_signature (l : LedgerInfoWithSignatures)
    (validator : AccountAddress) (signature : Sig) :
    LedgerInfoWithSignatures :=
  { l with signatures := hmInsertIfAbsent l.signatures validator signature }

/-- `LedgerInfoWithSignatures::verify` (ledger_info.rs): return Ok
immediately on a nominal ledger info, otherwise hand the ledger info hash
and the signature map to the aggregated-signature verifier. The verifier
(`ValidatorVerifier::batch_verify_aggregated_signature`, outside src/) is
passed as a function parameter. -/
def LedgerInfoWithSignatures.verify (l : LedgerInfoWithSignatures)
    (h : Hasher)
    (batch_verify : HashValue → HMap AccountAddress Sig → Except String Unit) :
    Except String Unit :=
  if l.ledger_info.is_zero then Except.ok ()
  else batch_verify (l.ledger_info.hash h) l.signatures

/-- C9: verify on a LedgerInfoWithSignatures whose ledger info has
version 0 returns Ok for every hasher and every aggregated-signature
verifier, in particular without consulting a single signature: the
verifier function is never applied. -/
theorem verify_nominal_ledger_info_skips_signature_check
    (l : LedgerInfoWithSignatures) (h : Hasher)
    (batch_verify : HashValue → HMap AccountAddress Sig → Except String Unit)
    (hv : l.ledger_info.version = 0) :
    l.verify h batch_verify = Except.ok () := by
  unfold LedgerInfoWithSignatures.verify LedgerInfo.is_zero
  rw [hv]
  rfl

/-- Witness for C9: a version-0 record with an empty signature map passes
verify even under an always-failing verifier. -/
theorem verify_nominal_ledger_info_skips_signature_check_witness :
    LedgerInfoWithSignatures.verify
        { ledger_info :=
            { version := 0, transaction_accumulator_hash := sampleHash 1,
              consensus_data_hash := sampleHash 2,
              consensus_block_id := sampleHash 3,
              epoch_num := 4, timestamp_usecs := 5 },
          signatures := [] }
        (fun _ _ => sampleHash 9)
        (fun _ _ => Except.error "invalid signatures") = Except.ok () :=
  verify_nominal_ledger_info_skips_signature_check _ _ _ rfl

/-- Keys reachable by hmInsertIfAbsent: inserting an absent key appends
it, so afterwards the key is present. -/
theorem hmContains_hmInsertIfAbsent {α β : Type} [DecidableEq α]
    (m : HMap α β) (k : α) (v : β) :
    hmContains (hmInsertIfAbsent m k v) k = true := by
  unfold hmInsertIfAbsent
  by_cases hc : hmContains m k
  · simp [hc]
  · simp only [hc, if_neg, Bool.false_eq_true, if_false]
    unfold hmContains at hc ⊢
    simp [List.any_append]

/-- C10: add_signature is first-write-wins: when the validator already
has an entry the map is left unchanged, and adding twice for the same
validator equals adding once with the first signature. -/
theorem add_signature_first_write_wins (l : LedgerInfoWithSignatures)
    (validator : AccountAddress) (s1 s2 : Sig) :
    (hmContains l.signatures validator = true →
      l.add_signature validator s1 = l) ∧
      (l.add_signature validator s1).add_signature validator s2 =
        l.add_signature validator s1 := by
  constructor
  · intro hc
    unfold LedgerInfoWithSignatures.add_signature hmInsertIfAbsent
    rw [hc]
    simp
  · unfold LedgerInfoWithSignatures.add_signature
    have hc := hmContains_hmInsertIfAbsent l.signatures validator s1
    simp only
    rw [hmInsertIfAbsent, hc]
    simp

/-- Witness for C10 at a concrete record: the validator key is already
present, so both conjuncts evaluate on concrete maps. -/
theorem add_signature_first_write_wins_witness :
    ({ ledger_info :=
          { version := 1, transaction_accumulator_hash := sampleHash 1,
            consensus_data_hash := sampleHash 2,
            consensus_block_id := sampleHash 3,
            epoch_num := 4, timestamp_usecs := 5 },
        signatures := [(List.replicate 32 7, List.replicate 64 1)] :
        LedgerInfoWithSignatures }.add_signature (List.replicate 32 7)
          (List.replicate 64 2) =
        { ledger_info :=
            { version := 1, transaction_accumulator_hash := sampleHash 1,
              consensus_data_hash := sampleHash 2,
              consensus_block_id := sampleHash 3,
              epoch_num := 4, timestamp_usecs := 5 },
          signatures := [(List.replicate 32 7, List.replicate 64 1)] }) ∧
      (({ ledger_info :=
            { version := 1, transaction_accumulator_hash := sampleHash 1,
              consensus_data_hash := sampleHash 2,
              consensus_block_id := sampleHash 3,
              epoch_num := 4, timestamp_usecs := 5 },
          signatures := [(List.replicate 32 7, List.replicate 64 1)] :
          LedgerInfoWithSignatures }.add_signature (List.replicate 32 7)
            (List.replicate 64 2)).add_signature (List.replicate 32 7)
          (List.replicate 64 3) =
        { ledger_info :=
            { version := 1, transaction_accumulator_hash := sampleHash 1,
              consensus_data_hash := sampleHash 2,
              consensus_block_id := sampleHash 3,
              epoch_num := 4, timestamp_usecs := 5 },
          signatures := [(List.replicate 32 7, List.replicate 64 1)] :
          LedgerInfoWithSignatures }.add_signature (List.replicate 32 7)
          (List.replicate 64 2)) :=
  ⟨(add_signature_first_write_wins _ (List.replicate 32 7)
      (List.replicate 64 2) (List.replicate 64 3)).1 (by decide),
    (add_signature_first_write_wins _ (List.replicate 32 7)
      (List.replicate 64 2) (List.replicate 64 3)).2⟩

/-- Wire form of one signature entry
(proto ValidatorSignature: validator id bytes plus signature bytes). -/
structure ValidatorSignatureProto where
  validator_id : List Nat
  signature : List Nat
deriving DecidableEq

/-- Wire form of a LedgerInfo (proto): u64 fields plus raw byte strings
for the three digests. -/
structure LedgerInfoProto where
  version : Nat
  transaction_accumulator_hash : List Nat
  consensus_data_hash : List Nat
  consensus_block_id : List Nat
  epoch_num : Nat
  timestamp_usecs : Nat
deriving DecidableEq

/-- Wire form of a LedgerInfoWithSignatures (proto). -/
structure LedgerInfoWithSignaturesProto where
  ledger_info : LedgerInfoProto
  signatures : List ValidatorSignatureProto
deriving DecidableEq

/-- `FromProto for LedgerInfo` (ledger_info.rs): decode the three digests
with `HashValue::from_slice` and copy the integer fields. -/
def LedgerInfo.from_proto (p : LedgerInfoProto) : Option LedgerInfo :=
  match HashValue.from_slice p.transaction_accumulator_hash with
  | none => none
  | some tah =>
    match HashValue.from_slice p.consensus_data_hash with
    | none => none
    | some cdh =>
      match HashValue.from_slice p.consensus_block_id with
      | none => none
      | some cbi =>
        some { version := p.version, transaction_accumulator_hash := tah,
               consensus_data_hash := cdh, consensus_block_id := cbi,
               epoch_num := p.epoch_num, timestamp_usecs := p.timestamp_usecs }

/-- The per-entry decoding loop of `FromProto for LedgerInfoWithSignatures`
(ledger_info.rs): decode each validator id and signature, failing on the
first bad entry. -/
def decodeSigs : List ValidatorSignatureProto →
    Option (List (AccountAddress × Sig))
  | [] => some []
  | q :: rest =>
    match AccountAddress.from_proto q.validator_id with
    | none => none
    | some a =>
      match Sig.try_from q.signature with
      | none => none
      | some s =>
        match decodeSigs rest with
        | none => none
        | some pairs => some ((a, s) :: pairs)

/-- Folding `HashMap::insert` over decoded entries, as done by
`collect::<Result<HashMap<_, _>>>()`. -/
def hmInsertAll {α β : Type} [DecidableEq α] (m : HMap α β)
    (pairs : List (α × β)) : HMap α β :=
  pairs.foldl (fun m2 kv => hmInsert m2 kv.1 kv.2) m

/-- `FromProto for LedgerInfoWithSignatures` (ledger_info.rs): decode the
ledger info, decode every signature entry, collect them into a map, and
require the map to be as large as the entry list ("Signatures should be
from different validators."). -/
def LedgerInfoWithSignatures.from_proto (p : LedgerInfoWithSignaturesProto) :
    Except String LedgerInfoWithSignatures :=
  match LedgerInfo.from_proto p.ledger_info with
  | none => Except.error "invalid ledger info"
  | some li =>
    match decodeSigs p.signatures with
    | none => Except.error "invalid signature entry"
    | some pairs =>
      if (hmInsertAll ([] : HMap AccountAddress Sig) pairs).length =
          p.signatures.length then
        Except.ok { ledger_info := li,
                    signatures := hmInsertAll ([] : HMap AccountAddress Sig) pairs }
      else Except.error "Signatures should be from different validators."

/-- Whether an Except carries a success value. -/
def exceptIsOk {ε α : Type} : Except ε α → Bool
  | Except.ok _ => true
  | Except.error _ => false

/-- Successful entry decoding preserves the entry count. -/
theorem decodeSigs_length (ps : List ValidatorSignatureProto)
    (pairs : List (AccountAddress × Sig)) (hd : decodeSigs ps = some pairs) :
    pairs.length = ps.length := by
  induction ps generalizing pairs with
  | nil =>
    simp only [decodeSigs, Option.some.injEq] at hd
    simp [← hd]
  | cons q rest ih =>
    simp only [decodeSigs] at hd
    cases ha : AccountAddress.from_proto q.validator_id with
    | none => rw [ha] at hd; cases hd
    | some a =>
      rw [ha] at hd
      cases hs : Sig.try_from q.signature with
      | none => rw [hs] at hd; cases hd
      | some s =>
        rw [hs] at hd
        cases hr : decodeSigs rest with
        | none => rw [hr] at hd; cases hd
        | some ps2 =>
          rw [hr] at hd
          simp only [Option.some.injEq] at hd
          subst hd
          simp [ih ps2 hr]

/-- A successfully decoded entry list has exactly the wire validator ids
as its keys (the address decoder returns the input bytes). -/
theorem decodeSigs_fst (ps : List ValidatorSignatureProto)
    (pairs : List (AccountAddress × Sig)) (hd : decodeSigs ps = some pairs) :
    pairs.map Prod.fst = ps.map (fun q => q.validator_id) := by
  induction ps generalizing pairs with
  | nil =>
    simp only [decodeSigs, Option.some.injEq] at hd
    simp [← hd]
  | cons q rest ih =>
    simp only [decodeSigs] at hd
    cases ha : AccountAddress.from_proto q.validator_id with
    | none => rw [ha] at hd; cases hd
    | some a =>
      rw [ha] at hd
      cases hs : Sig.try_from q.signature with
      | none => rw [hs] at hd; cases hd
      | some s =>
        rw [hs] at hd
        cases hr : decodeSigs rest with
        | none => rw [hr] at hd; cases hd
        | some ps2 =>
          rw [hr] at hd
          simp only [Option.some.injEq] at hd
          subst hd
          have hab : a = q.validator_id := by
            unfold AccountAddress.from_proto at ha
            by_cases hl : q.validator_id.length = 32
            · simp [hl] at ha; exact ha.symm
            · simp [hl] at ha
          simp [hab, ih ps2 hr]

/-- hmContains agrees with membership in the key list. -/
theorem hmContains_iff_mem_keys {α β : Type} [DecidableEq α]
    (m : HMap α β) (k : α) : hmContains m k = true ↔ k ∈ hmKeys m := by
  unfold hmContains hmKeys
  simp only [List.any_eq_true, decide_eq_true_eq, List.mem_map]

/-- Inserting leaves the key list unchanged when the key is present and
appends the key otherwise. -/
theorem hmKeys_hmInsert {α β : Type} [DecidableEq α] (m : HMap α β)
    (k : α) (v : β) :
    hmKeys (hmInsert m k v) =
      if hmContains m k then hmKeys m else hmKeys m ++ [k] := by
  unfold hmInsert
  by_cases hc : hmContains m k
  · simp only [hc, if_true]
    unfold hmKeys
    rw [List.map_map]
    apply List.map_congr_left
    intro p _
    by_cases hp : p.1 = k
    · simp [hp]
    · simp [hp]
  · simp only [hc, Bool.false_eq_true, if_false]
    unfold hmKeys
    simp

/-- Inserting a present key keeps the map size; inserting an absent key
grows it by one. -/
theorem hmInsert_length {α β : Type} [DecidableEq α] (m : HMap α β)
    (k : α) (v : β) :
    (hmInsert m k v).length =
      if hmContains m k then m.length else m.length + 1 := by
  unfold hmInsert
  by_cases hc : hmContains m k
  · simp [hc]
  · simp [hc]

/-- The one-step size bound for an insert. -/
theorem hmInsert_length_le {α β : Type} [DecidableEq α] (m : HMap α β)
    (k : α) (v : β) : (hmInsert m k v).length ≤ m.length + 1 := by
  rw [hmInsert_length]
  by_cases hc : hmContains m k <;> simp [hc]

/-- The inserted key is present afterwards. -/
theorem hmContains_hmInsert_self {α β : Type} [DecidableEq α]
    (m : HMap α β) (k : α) (v : β) :
    hmContains (hmInsert m k v) k = true := by
  rw [hmContains_iff_mem_keys, hmKeys_hmInsert]
  by_cases hc : hmContains m k
  · simp only [hc, if_true]
    exact (hmContains_iff_mem_keys m k).1 hc
  · simp [hc]

/-- Keys present before an insert stay present. -/
theorem hmContains_hmInsert_mono {α β : Type} [DecidableEq α]
    (m : HMap α β) (k k2 : α) (v : β) (hc : hmContains m k = true) :
    hmContains (hmInsert m k2 v) k = true := by
  rw [hmContains_iff_mem_keys, hmKeys_hmInsert]
  by_cases hc2 : hmContains m k2
  · simp only [hc2, if_true]
    exact (hmContains_iff_mem_keys m k).1 hc
  · simp only [hc2, Bool.false_eq_true, if_false, List.mem_append]
    exact Or.inl ((hmContains_iff_mem_keys m k).1 hc)

/-- Size bound for folding inserts: at most one new slot per entry. -/
theorem hmInsertAll_length_le {α β : Type} [DecidableEq α]
    (pairs : List (α × β)) (m : HMap α β) :
    (hmInsertAll m pairs).length ≤ m.length + pairs.length := by
  induction pairs generalizing m with
  | nil => simp [hmInsertAll]
  | cons kv rest ih =>
    show (hmInsertAll (hmInsert m kv.1 kv.2) rest).length ≤
      m.length + (rest.length + 1)
    calc (hmInsertAll (hmInsert m kv.1 kv.2) rest).length ≤
        (hmInsert m kv.1 kv.2).length + rest.length := ih _
      _ ≤ (m.length + 1) + rest.length :=
          Nat.add_le_add_right (hmInsert_length_le m kv.1 kv.2) _
      _ = m.length + (rest.length + 1) := by omega

/-- Strict size bound when some entry key is already in the map. -/
theorem hmInsertAll_length_lt_of_hit {α β : Type} [DecidableEq α]
    (pairs : List (α × β)) (m : HMap α β)
    (hhit : ∃ kv ∈ pairs, hmContains m kv.1 = true) :
    (hmInsertAll m pairs).length < m.length + pairs.length := by
  induction pairs generalizing m with
  | nil => obtain ⟨kv, hmem, _⟩ := hhit; cases hmem
  | cons kv rest ih =>
    show (hmInsertAll (hmInsert m kv.1 kv.2) rest).length <
      m.length + (rest.length + 1)
    obtain ⟨kv2, hmem, hc⟩ := hhit
    rcases List.mem_cons.1 hmem with heq | hmem2
    · have hckv : hmContains m kv.1 = true := by rw [← heq]; exact hc
      have hlen : (hmInsert m kv.1 kv.2).length = m.length := by
        rw [hmInsert_length, hckv]
        rfl
      calc (hmInsertAll (hmInsert m kv.1 kv.2) rest).length ≤
          (hmInsert m kv.1 kv.2).length + rest.length :=
            hmInsertAll_length_le rest _
        _ = m.length + rest.length := by rw [hlen]
        _ < m.length + (rest.length + 1) := by omega
    · have hc2 : hmContains (hmInsert m kv.1 kv.2) kv2.1 = true :=
        hmContains_hmInsert_mono m kv2.1 kv.1 kv.2 hc
      calc (hmInsertAll (hmInsert m kv.1 kv.2) rest).length <
          (hmInsert m kv.1 kv.2).length + rest.length :=
            ih _ ⟨kv2, hmem2, hc2⟩
        _ ≤ (m.length + 1) + rest.length :=
            Nat.add_le_add_right (hmInsert_length_le m kv.1 kv.2) _
        _ = m.length + (rest.length + 1) := by omega

/-- Strict size bound when the entry keys themselves repeat. -/
theorem hmInsertAll_length_lt_of_dup {α β : Type} [DecidableEq α]
    (pairs : List (α × β)) (m : HMap α β)
    (hdup : ¬ (pairs.map Prod.fst).Nodup) :
    (hmInsertAll m pairs).length < m.length + pairs.length := by
  induction pairs generalizing m with
  | nil => exact absurd List.nodup_nil hdup
  | cons kv rest ih =>
    show (hmInsertAll (hmInsert m kv.1 kv.2) rest).length <
      m.length + (rest.length + 1)
    rw [List.map_cons, List.nodup_cons] at hdup
    push_neg at hdup
    by_cases hdrest : (rest.map Prod.fst).Nodup
    · have hmem : kv.1 ∈ rest.map Prod.fst := by
        by_contra hnm
        exact hdup hnm hdrest
      obtain ⟨kv2, hmem2, hfst⟩ := List.mem_map.1 hmem
      have hc2 : hmContains (hmInsert m kv.1 kv.2) kv2.1 = true := by
        rw [hfst]
        exact hmContains_hmInsert_self m kv.1 kv.2
      calc (hmInsertAll (hmInsert m kv.1 kv.2) rest).length <
          (hmInsert m kv.1 kv.2).length + rest.length :=
            hmInsertAll_length_lt_of_hit rest _ ⟨kv2, hmem2, hc2⟩
        _ ≤ (m.length + 1) + rest.length :=
            Nat.add_le_add_right (hmInsert_length_le m kv.1 kv.2) _
        _ = m.length + (rest.length + 1) := by omega
    · calc (hmInsertAll (hmInsert m kv.1 kv.2) rest).length <
          (hmInsert m kv.1 kv.2).length + rest.length := ih _ hdrest
        _ ≤ (m.length + 1) + rest.length :=
            Nat.add_le_add_right (hmInsert_length_le m kv.1 kv.2) _
        _ = m.length + (rest.length + 1) := by omega

/-- Folding inserts preserves distinctness of the key list. -/
theorem hmInsertAll_nodup_keys {α β : Type} [DecidableEq α]
    (pairs : List (α × β)) (m : HMap α β) (hnd : (hmKeys m).Nodup) :
    (hmKeys (hmInsertAll m pairs)).Nodup := by
  induction pairs generalizing m with
  | nil => exact hnd
  | cons kv rest ih =>
    show (hmKeys (hmInsertAll (hmInsert m kv.1 kv.2) rest)).Nodup
    apply ih
    rw [hmKeys_hmInsert]
    by_cases hc : hmContains m kv.1
    · simp only [hc, if_true]
      exact hnd
    · simp only [hc, Bool.false_eq_true, if_false]
      rw [List.nodup_append]
      refine ⟨hnd, List.nodup_singleton kv.1, ?_⟩
      intro a ha hb
      rw [List.mem_singleton] at hb
      subst hb
      exact hc ((hmContains_iff_mem_keys m kv.1).2 ha)

/-- C8: deserializing a LedgerInfoWithSignatures from its wire form fails
whenever two signature entries share a validator identifier, and every
successfully deserialized record has a signature map with distinct keys. -/
theorem from_proto_distinct_validator_keys
    (p : LedgerInfoWithSignaturesProto) (w : LedgerInfoWithSignatures) :
    (¬ (p.signatures.map (fun q => q.validator_id)).Nodup →
        exceptIsOk (LedgerInfoWithSignatures.from_proto p) = false) ∧
      (LedgerInfoWithSignatures.from_proto p = Except.ok w →
        (hmKeys w.signatures).Nodup) := by
  constructor
  · intro hdup
    unfold LedgerInfoWithSignatures.from_proto
    cases hli : LedgerInfo.from_proto p.ledger_info with
    | none => rfl
    | some li =>
      cases hds : decodeSigs p.signatures with
      | none => rfl
      | some pairs =>
        dsimp only
        have hfst := decodeSigs_fst p.signatures pairs hds
        have hcnt := decodeSigs_length p.signatures pairs hds
        have hdup2 : ¬ (pairs.map Prod.fst).Nodup := by
          rw [hfst]
          exact hdup
        have hlt := hmInsertAll_length_lt_of_dup pairs
          ([] : HMap AccountAddress Sig) hdup2
        simp only [List.length_nil, Nat.zero_add] at hlt
        rw [hcnt] at hlt
        rw [if_neg (Nat.ne_of_lt hlt)]
        rfl
  · intro hok
    unfold LedgerInfoWithSignatures.from_proto at hok
    cases hli : LedgerInfo.from_proto p.ledger_info with
    | none => rw [hli] at hok; cases hok
    | some li =>
      rw [hli] at hok
      cases hds : decodeSigs p.signatures with
      | none => rw [hds] at hok; cases hok
      | some pairs =>
        rw [hds] at hok
        dsimp only at hok
        by_cases hlen : (hmInsertAll ([] : HMap AccountAddress Sig)
            pairs).length = p.signatures.length
        · rw [if_pos hlen] at hok
          cases hok
          exact hmInsertAll_nodup_keys pairs [] List.nodup_nil
        · rw [if_neg hlen] at hok
          cases hok

/-- A concrete wire-form LedgerInfo used for concrete evaluations. -/
def sampleLedgerInfoProto : LedgerInfoProto :=
  { version := 9, transaction_accumulator_hash := List.replicate 32 1,
    consensus_data_hash := List.replicate 32 2,
    consensus_block_id := List.replicate 32 3,
    epoch_num := 4, timestamp_usecs := 5 }

/-- A wire record carrying two signature entries for the same validator. -/
def dupValidatorProto : LedgerInfoWithSignaturesProto :=
  { ledger_info := sampleLedgerInfoProto,
    signatures :=
      [{ validator_id := List.replicate 32 7, signature := List.replicate 64 1 },
       { validator_id := List.replicate 32 7, signature := List.replicate 64 2 }] }

/-- A wire record carrying two signature entries for distinct validators. -/
def distinctValidatorProto : LedgerInfoWithSignaturesProto :=
  { ledger_info := sampleLedgerInfoProto,
    signatures :=
      [{ validator_id := List.replicate 32 7, signature := List.replicate 64 1 },
       { validator_id := List.replicate 32 8, signature := List.replicate 64 2 }] }

/-- The record that deserializing `distinctValidatorProto` produces. -/
def distinctValidatorDecoded : LedgerInfoWithSignatures :=
  { ledger_info :=
      { version := 9, transaction_accumulator_hash := sampleHash 1,
        consensus_data_hash := sampleHash 2,
        consensus_block_id := sampleHash 3,
        epoch_num := 4, timestamp_usecs := 5 },
    signatures :=
      [(List.replicate 32 7, List.replicate 64 1),
       (List.replicate 32 8, List.replicate 64 2)] }

/-- Witness for C8: a duplicated validator makes deserialization fail,
and a successfully deserialized record has distinct keys. -/
theorem from_proto_distinct_validator_keys_witness :
    exceptIsOk (LedgerInfoWithSignatures.from_proto dupValidatorProto) =
        false ∧
      (hmKeys distinctValidatorDecoded.signatures).Nodup :=
  ⟨(from_proto_distinct_validator_keys dupValidatorProto
        distinctValidatorDecoded).1 (by decide),
    (from_proto_distinct_validator_keys distinctValidatorProto
        distinctValidatorDecoded).2 rfl⟩

/-- Modelled from the spec: the transaction-accumulator summary
(types/src/proof, outside src/) is the logarithmic frontier of sub-tree
roots; only its presence or absence matters to the client core. -/
structure TransactionAccumulatorSummary where
  subtree_roots : List HashValue
deriving DecidableEq

/-- Modelled from the spec: `TrustedState`
(types/src/trusted_state.rs, outside src/) is either an epoch waypoint
(no accumulator) or a verified epoch-state snapshot, optionally carrying
the accumulator summary; the client core reads its epoch, its version and
the optional summary, so those observations are the model. -/
structure TrustedState where
  epoch : Nat
  version : Nat
  accumulator_summary : Option TransactionAccumulatorSummary
deriving DecidableEq

/-- The lexicographic order on (epoch, version) pairs used by the
compare-and-swap ratchet. -/
def epochVersionLe (a b : TrustedState) : Prop :=
  a.epoch < b.epoch ∨ (a.epoch = b.epoch ∧ a.version ≤ b.version)

instance (a b : TrustedState) : Decidable (epochVersionLe a b) := by
  unfold epochVersionLe
  infer_instance

/-- The error taxonomy surfaced by the verifying client. NeedSync is the
dedicated bootstrap-gate error; the source spells it as
`Error::unknown("our client is too far behind, we need to sync")` and the
spec names the kind NeedSync, so the constructor carries that message. -/
inductive ClientError where
  | needSync (msg : String)
  | rpcResponse (msg : String)
  | invalidProof (msg : String)
  | storageError (msg : String)
  | decodeError (msg : String)
  | unknownErr (msg : String)
deriving DecidableEq

/-- `TrustedStateStore` (verifying_client/state_store.rs, outside src/):
owns the single current trusted state; the storage adapter is modelled
by the persist predicate passed to ratchet. -/
structure TrustedStateStore where
  trusted_state : TrustedState
deriving DecidableEq

/-- Modelled from the spec: the compare-and-swap ratchet of the
trusted-state store (state_store.rs, outside src/). If the candidate is
lexicographically at most the current (epoch, version) the call is a
successful no-op; otherwise the store is replaced and persisted, and a
persist failure surfaces as StorageError with the in-memory state not
advanced. -/
def TrustedStateStore.ratchet (persistOk : TrustedState → Bool)
    (store : TrustedStateStore) (candidate : TrustedState) :
    Except ClientError TrustedStateStore :=
  if epochVersionLe candidate store.trusted_state then Except.ok store
  else if persistOk candidate then Except.ok { trusted_state := candidate }
  else Except.error (ClientError.storageError "failed to persist waypoint")

/-- `VerifyingClient::ratchet` (client.rs): ratchet the store when the
verified change produced a new state, succeed trivially otherwise. -/
def VerifyingClient.ratchet (persistOk : TrustedState → Bool)
    (store : TrustedStateStore) (new_state : Option TrustedState) :
    Except ClientError TrustedStateStore :=
  match new_state with
  | some ns => store.ratchet persistOk ns
  | none => Except.ok store

/-- Running a sequence of store ratchets, keeping the old store whenever
a call errors (the all-or-nothing contract). -/
def runRatchets (persistOk : TrustedState → Bool)
    (store : TrustedStateStore) : List TrustedState → TrustedStateStore
  | [] => store
  | c :: cs =>
    match store.ratchet persistOk c with
    | Except.ok st2 => runRatchets persistOk st2 cs
    | Except.error _ => runRatchets persistOk store cs

/-- epochVersionLe is reflexive. -/
theorem epochVersionLe_refl (a : TrustedState) : epochVersionLe a a :=
  Or.inr ⟨rfl, Nat.le_refl _⟩

/-- epochVersionLe is transitive. -/
theorem epochVersionLe_trans (a b c : TrustedState)
    (hab : epochVersionLe a b) (hbc : epochVersionLe b c) :
    epochVersionLe a c := by
  unfold epochVersionLe at hab hbc ⊢
  omega

/-- epochVersionLe is total. -/
theorem epochVersionLe_total (a b : TrustedState)
    (h : ¬ epochVersionLe a b) : epochVersionLe b a := by
  unfold epochVersionLe at h ⊢
  omega

/-- One store ratchet never moves the stored (epoch, version) backwards,
whether it succeeds or errors. -/
theorem ratchet_step_le (persistOk : TrustedState → Bool)
    (store : TrustedStateStore) (c : TrustedState) :
    epochVersionLe store.trusted_state
      (match store.ratchet persistOk c with
        | Except.ok st2 => st2
        | Except.error _ => store).trusted_state := by
  unfold TrustedStateStore.ratchet
  by_cases hle : epochVersionLe c store.trusted_state
  · rw [if_pos hle]
    exact epochVersionLe_refl _
  · rw [if_neg hle]
    by_cases hp : persistOk c = true
    · rw [if_pos hp]
      exact epochVersionLe_total c store.trusted_state hle
    · rw [if_neg hp]
      exact epochVersionLe_refl _

/-- The stored (epoch, version) is non-decreasing across any sequence of
ratchet calls. -/
theorem runRatchets_monotone (persistOk : TrustedState → Bool)
    (store : TrustedStateStore) (cs : List TrustedState) :
    epochVersionLe store.trusted_state
      (runRatchets persistOk store cs).trusted_state := by
  induction cs generalizing store with
  | nil => exact epochVersionLe_refl _
  | cons c rest ih =>
    have hstep := ratchet_step_le persistOk store c
    unfold runRatchets
    cases hr : store.ratchet persistOk c with
    | ok st2 =>
      rw [hr] at hstep
      exact epochVersionLe_trans _ _ _ hstep (ih st2)
    | error e =>
      rw [hr] at hstep
      exact epochVersionLe_trans _ _ _ hstep (ih store)

/-- C2: a candidate whose (epoch, version) is lexicographically at most
the current one makes ratchet a successful no-op, and across any sequence
of ratchet calls the stored (epoch, version) is non-decreasing. -/
theorem ratchet_lost_race_is_noop_and_monotone
    (persistOk : TrustedState → Bool) (store : TrustedStateStore)
    (candidate : TrustedState)
    (h : epochVersionLe candidate store.trusted_state) :
    store.ratchet persistOk candidate = Except.ok store ∧
      ∀ cs : List TrustedState,
        epochVersionLe store.trusted_state
          (runRatchets persistOk store cs).trusted_state := by
  constructor
  · unfold TrustedStateStore.ratchet
    rw [if_pos h]
  · intro cs
    exact runRatchets_monotone persistOk store cs

/-- A concrete trusted state used for concrete evaluations. -/
def trustedStateAt (epoch version : Nat) : TrustedState :=
  { epoch := epoch, version := version, accumulator_summary := none }

/-- Witness for C2: the lost-race scenario of the spec, with the store at
version 80 and a late candidate at version 70 of the same epoch. -/
theorem ratchet_lost_race_is_noop_and_monotone_witness :
    TrustedStateStore.ratchet (fun _ => true)
        { trusted_state := trustedStateAt 1 80 } (trustedStateAt 1 70) =
      Except.ok { trusted_state := trustedStateAt 1 80 } ∧
    epochVersionLe
      ({ trusted_state := trustedStateAt 1 80 :
          TrustedStateStore }).trusted_state
      (runRatchets (fun _ => true) { trusted_state := trustedStateAt 1 80 }
        [trustedStateAt 1 70, trustedStateAt 2 90]).trusted_state := by
  have h := ratchet_lost_race_is_noop_and_monotone (fun _ => true)
    { trusted_state := trustedStateAt 1 80 } (trustedStateAt 1 70)
    (Or.inr ⟨rfl, by decide⟩)
  exact ⟨h.1, h.2 _⟩

/-- The wire-level request methods issued by the client core; requests
whose payload is irrelevant to the claims are collapsed into `other`. -/
inductive MethodRequest where
  | get_accumulator_consistency_proof (fromVersion : Option Nat)
      (toVersion : Option Nat)
  | get_state_proof (version : Nat)
  | other (tag : Nat)
deriving DecidableEq

/-- A wire-level response, opaque to the claims. -/
abbrev MethodResponse : Type := Nat

/-- The collaborators of `VerifyingClient::batch` that live outside src/
(VerifyingBatch in methods.rs, the inner JSON-RPC client) and the storage
adapter, passed as explicit functions. -/
structure BatchEnv where
  collectRequests : List MethodRequest → Nat → List MethodRequest
  innerBatch : List MethodRequest →
    Except ClientError (List MethodResponse)
  validateResponses : List MethodRequest → TrustedState →
    List MethodResponse →
    Except ClientError
      (Option TrustedState × List (Except ClientError MethodResponse))
  persistOk : TrustedState → Bool

/-- Everything observable about one `batch` call: its return value, the
RPC batches it sent to the inner client, and the store afterwards. -/
structure BatchOutcome where
  result : Except ClientError (List (Except ClientError MethodResponse))
  sentRequests : List (List MethodRequest)
  finalStore : TrustedStateStore

/-- `VerifyingClient::batch` (client.rs): snapshot the trusted state; if
it has no accumulator summary yet, immediately return the NeedSync error
with no RPC issued and no store change; otherwise expand the user
requests, send them, validate the responses and ratchet the store. -/
def VerifyingClient.batch (env : BatchEnv) (store : TrustedStateStore)
    (requests : List MethodRequest) : BatchOutcome :=
  if (store.trusted_state).accumulator_summary.isNone then
    { result := Except.error
        (ClientError.needSync "our client is too far behind, we need to sync"),
      sentRequests := [], finalStore := store }
  else
    match env.innerBatch
        (env.collectRequests requests (store.trusted_state).version) with
    | Except.error e =>
      { result := Except.error e,
        sentRequests :=
          [env.collectRequests requests (store.trusted_state).version],
        finalStore := store }
    | Except.ok responses =>
      match env.validateResponses requests store.trusted_state responses with
      | Except.error e =>
        { result := Except.error e,
          sentRequests :=
            [env.collectRequests requests (store.trusted_state).version],
          finalStore := store }
      | Except.ok (new_state, results) =>
        match VerifyingClient.ratchet env.persistOk store new_state with
        | Except.error e =>
          { result := Except.error e,
            sentRequests :=
              [env.collectRequests requests (store.trusted_state).version],
            finalStore := store }
        | Except.ok store2 =>
          { result := Except.ok results,
            sentRequests :=
              [env.collectRequests requests (store.trusted_state).version],
            finalStore := store2 }

/-- C1: on a trusted state without accumulator summary, batch returns the
dedicated NeedSync error, sends no RPC to the inner client, and leaves
the trusted-state store unchanged, for every environment and request
list. -/
theorem batch_without_accumulator_is_need_sync (env : BatchEnv)
    (store : TrustedStateStore) (requests : List MethodRequest)
    (h : (store.trusted_state).accumulator_summary = none) :
    (VerifyingClient.batch env store requests).result =
        Except.error (ClientError.needSync
          "our client is too far behind, we need to sync") ∧
      (VerifyingClient.batch env store requests).sentRequests = [] ∧
      (VerifyingClient.batch env store requests).finalStore = store := by
  unfold VerifyingClient.batch
  rw [h]
  exact ⟨rfl, rfl, rfl⟩

/-- An environment whose inner client answers every request and whose
validator accepts everything, used for concrete evaluations. -/
def constBatchEnv : BatchEnv :=
  { collectRequests := fun reqs _ => reqs,
    innerBatch := fun reqs => Except.ok (reqs.map (fun _ => 0)),
    validateResponses := fun _ _ resps =>
      Except.ok (none, resps.map Except.ok),
    persistOk := fun _ => true }

/-- Witness for C1 at a concrete store without accumulator summary. -/
theorem batch_without_accumulator_is_need_sync_witness :
    (VerifyingClient.batch constBatchEnv
        { trusted_state := trustedStateAt 3 50 }
        [MethodRequest.other 0]).result =
        Except.error (ClientError.needSync
          "our client is too far behind, we need to sync") ∧
      (VerifyingClient.batch constBatchEnv
        { trusted_state := trustedStateAt 3 50 }
        [MethodRequest.other 0]).sentRequests = [] ∧
      (VerifyingClient.batch constBatchEnv
        { trusted_state := trustedStateAt 3 50 }
        [MethodRequest.other 0]).finalStore =
        { trusted_state := trustedStateAt 3 50 } :=
  batch_without_accumulator_is_need_sync constBatchEnv
    { trusted_state := trustedStateAt 3 50 } [MethodRequest.other 0] rfl

/-- The per-response metadata block: ledger version and timestamp in
microseconds. -/
structure ClientMetadata where
  version : Nat
  timestamp_usecs : Nat
deriving DecidableEq

/-- The slice of a transaction view read by wait_for_transaction: its
hash. -/
structure TransactionView where
  hash : HashValue
deriving DecidableEq

/-- The results of the wait_for_transaction polling loop
(WaitForTransactionError plus the success case). -/
inductive WaitResult where
  | ok (txn : TransactionView) (state : ClientMetadata)
  | hashMismatch (txn : TransactionView)
  | expired
  | timeout
deriving DecidableEq

/-- The outcome of one iteration of the polling loop: either the loop
finishes with a result or it sleeps and polls again. -/
inductive PollOutcome where
  | finished (r : WaitResult)
  | again
deriving DecidableEq

/-- One iteration of the `wait_for_transaction` loop body (client.rs):
if the server returned a transaction, mismatching hash means
HashMismatch and a matching hash means success; otherwise the call
expires when `expiration_time_secs <= state.timestamp_usecs / 1_000_000`,
else it sleeps and polls again. -/
def pollIter (txn_hash : HashValue) (expiration_time_secs : Nat)
    (maybe_txn : Option TransactionView) (state : ClientMetadata) :
    PollOutcome :=
  match maybe_txn with
  | some txn =>
    if txn.hash ≠ txn_hash then PollOutcome.finished (WaitResult.hashMismatch txn)
    else PollOutcome.finished (WaitResult.ok txn state)
  | none =>
    if expiration_time_secs ≤ state.timestamp_usecs / 1000000 then
      PollOutcome.finished WaitResult.expired
    else PollOutcome.again

/-- `VerifyingClient::wait_for_transaction` (client.rs) with the
wall-clock loop bound modelled as the list of poll responses the server
would give inside the timeout window: exhausting them is the Timeout
case. -/
def waitForTransaction (txn_hash : HashValue) (expiration_time_secs : Nat) :
    List (Option TransactionView × ClientMetadata) → WaitResult
  | [] => WaitResult.timeout
  | (maybe_txn, state) :: rest =>
    match pollIter txn_hash expiration_time_secs maybe_txn state with
    | PollOutcome.finished r => r
    | PollOutcome.again =>
      waitForTransaction txn_hash expiration_time_secs rest

/-- Counterexample to C4 as stated: with expiration_secs = 0 and a ledger
timestamp of 0 microseconds the code expires immediately, although the
ledger timestamp in seconds (0) does not exceed expiration_secs (0); the
code expires at equality, the claim only above it. -/
theorem wait_for_transaction_expired_at_equality :
    pollIter (sampleHash 0) 0 none { version := 0, timestamp_usecs := 0 } =
        PollOutcome.finished WaitResult.expired ∧
      ¬ ((0 : Nat) / 1000000 > 0) := by
  constructor
  · rfl
  · decide

/-- C4 (amended): a poll iteration returns Expired exactly when the
server has not returned the transaction and the latest ledger timestamp
in seconds is at least (not strictly above) expiration_secs; and the loop
returns Expired exactly when its first iteration does or continues into a
tail that does. -/
theorem wait_for_transaction_expired_iff (txn_hash : HashValue)
    (expiration_time_secs : Nat) (maybe_txn : Option TransactionView)
    (state : ClientMetadata)
    (rest : List (Option TransactionView × ClientMetadata)) :
    (pollIter txn_hash expiration_time_secs maybe_txn state =
        PollOutcome.finished WaitResult.expired ↔
      (maybe_txn = none ∧
        expiration_time_secs ≤ state.timestamp_usecs / 1000000)) ∧
    (waitForTransaction txn_hash expiration_time_secs
        ((maybe_txn, state) :: rest) = WaitResult.expired ↔
      (pollIter txn_hash expiration_time_secs maybe_txn state =
          PollOutcome.finished WaitResult.expired ∨
        (pollIter txn_hash expiration_time_secs maybe_txn state =
            PollOutcome.again ∧
          waitForTransaction txn_hash expiration_time_secs rest =
            WaitResult.expired))) := by
  constructor
  · cases maybe_txn with
    | none =>
      unfold pollIter
      by_cases he : expiration_time_secs ≤ state.timestamp_usecs / 1000000
      · rw [if_pos he]
        simp [he]
      · rw [if_neg he]
        simp [he]
    | some txn =>
      unfold pollIter
      by_cases hh : txn.hash = txn_hash
      · simp [hh]
      · simp [hh]
  · simp only [waitForTransaction]
    cases hp : pollIter txn_hash expiration_time_secs maybe_txn state with
    | finished r =>
      dsimp only
      constructor
      · intro hr
        exact Or.inl (by rw [hr])
      · intro hor
        rcases hor with hl | ⟨hagain, _⟩
        · injection hl with hl2
        · cases hagain
    | again =>
      dsimp only
      constructor
      · intro hr
        exact Or.inr ⟨rfl, hr⟩
      · intro hor
        rcases hor with hl | ⟨_, htail⟩
        · cases hl
        · exact htail

/-- C5: when a poll returns a transaction, the loop stops right there:
a mismatching hash yields HashMismatch carrying that transaction, a
matching hash yields success, regardless of any later polls. -/
theorem wait_for_transaction_hash_mismatch (txn_hash : HashValue)
    (expiration_time_secs : Nat) (txn : TransactionView)
    (state : ClientMetadata)
    (rest : List (Option TransactionView × ClientMetadata)) :
    (txn.hash ≠ txn_hash →
      waitForTransaction txn_hash expiration_time_secs
          ((some txn, state) :: rest) = WaitResult.hashMismatch txn) ∧
    (txn.hash = txn_hash →
      waitForTransaction txn_hash expiration_time_secs
          ((some txn, state) :: rest) = WaitResult.ok txn state) := by
  constructor
  · intro hne
    simp only [waitForTransaction, pollIter]
    rw [if_pos hne]
  · intro heq
    simp only [waitForTransaction, pollIter]
    rw [if_neg (fun hc => hc heq)]

/-- A concrete metadata block used for concrete evaluations. -/
def metadataAt (version timestamp_usecs : Nat) : ClientMetadata :=
  { version := version, timestamp_usecs := timestamp_usecs }

/-- Witness for C5: one mismatching and one matching concrete poll. -/
theorem wait_for_transaction_hash_mismatch_witness :
    waitForTransaction (sampleHash 0) 10
        [(some { hash := sampleHash 1 }, metadataAt 1 0)] =
      WaitResult.hashMismatch { hash := sampleHash 1 } ∧
    waitForTransaction (sampleHash 0) 10
        [(some { hash := sampleHash 0 }, metadataAt 1 0)] =
      WaitResult.ok { hash := sampleHash 0 } (metadataAt 1 0) :=
  ⟨(wait_for_transaction_hash_mismatch (sampleHash 0) 10
      { hash := sampleHash 1 } (metadataAt 1 0) []).1 (by decide),
    (wait_for_transaction_hash_mismatch (sampleHash 0) 10
      { hash := sampleHash 0 } (metadataAt 1 0) []).2 rfl⟩

/-- `EpochChangeProof` (types, outside src/): the certified epoch-change
records plus the `more` flag saying whether the server has further
epoch changes beyond what it sent. -/
structure EpochChangeProof where
  ledger_info_with_sigs : List LedgerInfoWithSignatures
  more : Bool
deriving DecidableEq

/-- `StateProof` (types, outside src/): the latest certified ledger info
plus the epoch-change proof, as read by the client core. -/
structure StateProof where
  latest_ledger_info : LedgerInfoWithSignatures
  epoch_changes : EpochChangeProof
deriving DecidableEq

/-- Modelled from the spec: an accumulator consistency proof is the list
of sibling sub-tree roots; only its identity matters to the client
core. -/
structure AccumulatorConsistencyProof where
  subtrees : List HashValue
deriving DecidableEq

/-- The collaborators of the sync path that live outside src/
(`TransactionAccumulatorSummary::try_from_genesis_proof`,
`verify_latest_li_matches_state` in methods.rs, and
`TrustedState::verify_and_ratchet`), passed as explicit functions. -/
structure SyncEnv where
  tryFromGenesisProof : AccumulatorConsistencyProof → Nat →
    Except ClientError TransactionAccumulatorSummary
  verifyLatestLiMatches : LedgerInfoWithSignatures → ClientMetadata →
    Except ClientError Unit
  verifyAndRatchet : TrustedState → StateProof →
    Option TransactionAccumulatorSummary →
    Except ClientError (Option TrustedState)

/-- What the server answers to one sync step: the state-proof response
with its metadata block, and the consistency-proof response with its
metadata block (the latter read only when requested). -/
structure StepResponse where
  consistencyProofResp : AccumulatorConsistencyProof
  consistencyState : ClientMetadata
  stateProof : StateProof
  stateProofState : ClientMetadata
deriving DecidableEq

/-- The outcome of `get_state_proof_and_maybe_accumulator`: the decoded
value (or error) and the wire requests that were issued. -/
structure RpcResult where
  value : Except ClientError (StateProof × Option TransactionAccumulatorSummary)
  requests : List MethodRequest

/-- `VerifyingClient::get_state_proof_and_maybe_accumulator` (client.rs):
without a needed initial accumulator it issues one get_state_proof
request; otherwise it issues a two-element batch
[get_accumulator_consistency_proof(None, Some(current)),
get_state_proof(current)], requires both metadata blocks to be equal,
and builds the initial accumulator from the genesis proof. In both
cases it finally checks the latest ledger info against the response
metadata. -/
def getStateProofAndMaybeAccumulator (env : SyncEnv) (resp : StepResponse)
    (current_version : Nat) (need_initial_accumulator : Bool) : RpcResult :=
  if !need_initial_accumulator then
    { requests := [MethodRequest.get_state_proof current_version],
      value :=
        match env.verifyLatestLiMatches resp.stateProof.latest_ledger_info
            resp.stateProofState with
        | Except.error e => Except.error e
        | Except.ok _ => Except.ok (resp.stateProof, none) }
  else
    { requests :=
        [MethodRequest.get_accumulator_consistency_proof none
          (some current_version),
         MethodRequest.get_state_proof current_version],
      value :=
        if resp.consistencyState ≠ resp.stateProofState then
          Except.error (ClientError.rpcResponse
            "expected batch response states equal")
        else
          match env.tryFromGenesisProof resp.consistencyProofResp
              current_version with
          | Except.error e => Except.error e
          | Except.ok acc =>
            match env.verifyLatestLiMatches resp.stateProof.latest_ledger_info
                resp.consistencyState with
            | Except.error e => Except.error e
            | Except.ok _ => Except.ok (resp.stateProof, some acc) }

/-- The outcome of one sync step: the returned more-flag and new store
(or error), and the wire requests that were issued. -/
structure StepOutcome where
  value : Except ClientError (Bool × TrustedStateStore)
  requests : List MethodRequest

/-- `VerifyingClient::sync_one_step` (client.rs): snapshot the trusted
state, request the state proof (and the initial accumulator when the
snapshot has none), verify and ratchet, and return the server's
`epoch_changes.more` flag. -/
def syncOneStep (env : SyncEnv) (persistOk : TrustedState → Bool)
    (store : TrustedStateStore) (resp : StepResponse) : StepOutcome :=
  let r := getStateProofAndMaybeAccumulator env resp
    (store.trusted_state).version
    (store.trusted_state).accumulator_summary.isNone
  { requests := r.requests,
    value :=
      match r.value with
      | Except.error e => Except.error e
      | Except.ok (state_proof, maybe_accumulator) =>
        match env.verifyAndRatchet store.trusted_state state_proof
            maybe_accumulator with
        | Except.error e => Except.error e
        | Except.ok change =>
          match VerifyingClient.ratchet persistOk store change with
          | Except.error e => Except.error e
          | Except.ok store2 =>
            Except.ok (state_proof.epoch_changes.more, store2) }

/-- `VerifyingClient::sync` (client.rs): iterate sync_one_step while it
reports more epoch changes. The server is modelled as the list of step
responses it would give; exhausting the list while the loop still wants
to continue is a model-level error. The second component counts the
sync_one_step invocations. -/
def sync (env : SyncEnv) (persistOk : TrustedState → Bool)
    (store : TrustedStateStore) :
    List StepResponse → Except ClientError TrustedStateStore × Nat
  | [] => (Except.error (ClientError.unknownErr "server script exhausted"), 0)
  | resp :: rest =>
    match (syncOneStep env persistOk store resp).value with
    | Except.error e => (Except.error e, 1)
    | Except.ok (true, store2) =>
      ((sync env persistOk store2 rest).1, (sync env persistOk store2 rest).2 + 1)
    | Except.ok (false, store2) => (Except.ok store2, 1)

/-- A successful RPC step hands back exactly the server's state proof. -/
theorem getStateProofAndMaybeAccumulator_ok_state_proof (env : SyncEnv)
    (resp : StepResponse) (current_version : Nat)
    (need_initial_accumulator : Bool) (sp : StateProof)
    (acc : Option TransactionAccumulatorSummary)
    (h : (getStateProofAndMaybeAccumulator env resp current_version
        need_initial_accumulator).value = Except.ok (sp, acc)) :
    sp = resp.stateProof := by
  unfold getStateProofAndMaybeAccumulator at h
  cases need_initial_accumulator with
  | false =>
    simp only [Bool.not_false, if_true] at h
    cases hv : env.verifyLatestLiMatches resp.stateProof.latest_ledger_info
        resp.stateProofState with
    | error e => rw [hv] at h; cases h
    | ok u =>
      rw [hv] at h
      injection h with h2
      exact (congrArg Prod.fst h2).symm
  | true =>
    simp only [Bool.not_true, Bool.false_eq_true, if_false] at h
    by_cases hs : resp.consistencyState ≠ resp.stateProofState
    · rw [if_pos hs] at h
      cases h
    · rw [if_neg hs] at h
      cases hg : env.tryFromGenesisProof resp.consistencyProofResp
          current_version with
      | error e => rw [hg] at h; cases h
      | ok a2 =>
        rw [hg] at h
        cases hv : env.verifyLatestLiMatches
            resp.stateProof.latest_ledger_info resp.consistencyState with
        | error e => rw [hv] at h; cases h
        | ok u =>
          rw [hv] at h
          injection h with h2
          exact (congrArg Prod.fst h2).symm

/-- A successful sync step returns exactly the more-flag of the server's
epoch-change proof. -/
theorem syncOneStep_more_flag (env : SyncEnv)
    (persistOk : TrustedState → Bool) (store : TrustedStateStore)
    (resp : StepResponse) (b : Bool) (st2 : TrustedStateStore)
    (hok : (syncOneStep env persistOk store resp).value =
      Except.ok (b, st2)) :
    b = resp.stateProof.epoch_changes.more := by
  unfold syncOneStep at hok
  dsimp only at hok
  cases hr : (getStateProofAndMaybeAccumulator env resp
      (store.trusted_state).version
      (store.trusted_state).accumulator_summary.isNone).value with
  | error e => rw [hr] at hok; cases hok
  | ok pr =>
    obtain ⟨sp, acc⟩ := pr
    rw [hr] at hok
    dsimp only at hok
    have hsp := getStateProofAndMaybeAccumulator_ok_state_proof env resp
      (store.trusted_state).version
      (store.trusted_state).accumulator_summary.isNone sp acc hr
    cases hr2 : env.verifyAndRatchet store.trusted_state sp acc with
    | error e => rw [hr2] at hok; cases hok
    | ok change =>
      rw [hr2] at hok
      dsimp only at hok
      cases hr3 : VerifyingClient.ratchet persistOk store change with
      | error e => rw [hr3] at hok; cases hok
      | ok store2 =>
        rw [hr3] at hok
        dsimp only at hok
        injection hok with h2
        have hb : sp.epoch_changes.more = b := congrArg Prod.fst h2
        rw [← hb, hsp]

/-- C3: sync_one_step issues the two-element batch including the
accumulator-consistency-proof-from-genesis request exactly when the
trusted state has no accumulator summary (one state-proof request
otherwise); on success it returns the server's epoch_changes.more flag;
and sync stops after a step reporting no more epochs while a step
reporting more epochs costs one invocation plus the run on the remaining
script. -/
theorem sync_iterates_while_more (env : SyncEnv)
    (persistOk : TrustedState → Bool) (store : TrustedStateStore)
    (resp : StepResponse) (rest : List StepResponse) (b : Bool)
    (st2 : TrustedStateStore) :
    ((syncOneStep env persistOk store resp).requests =
      if (store.trusted_state).accumulator_summary.isNone then
        [MethodRequest.get_accumulator_consistency_proof none
          (some (store.trusted_state).version),
         MethodRequest.get_state_proof (store.trusted_state).version]
      else [MethodRequest.get_state_proof (store.trusted_state).version]) ∧
    ((syncOneStep env persistOk store resp).value = Except.ok (b, st2) →
      b = resp.stateProof.epoch_changes.more) ∧
    ((syncOneStep env persistOk store resp).value =
        Except.ok (false, st2) →
      sync env persistOk store (resp :: rest) = (Except.ok st2, 1)) ∧
    ((syncOneStep env persistOk store resp).value = Except.ok (true, st2) →
      sync env persistOk store (resp :: rest) =
        ((sync env persistOk st2 rest).1,
          (sync env persistOk st2 rest).2 + 1)) := by
  refine ⟨?_, ?_, ?_, ?_⟩
  · have hpr : (syncOneStep env persistOk store resp).requests =
        (getStateProofAndMaybeAccumulator env resp
          (store.trusted_state).version
          (store.trusted_state).accumulator_summary.isNone).requests := rfl
    rw [hpr]
    unfold getStateProofAndMaybeAccumulator
    cases hn : (store.trusted_state).accumulator_summary.isNone with
    | true => simp
    | false => simp
  · exact syncOneStep_more_flag env persistOk store resp b st2
  · intro hok
    simp only [sync]
    rw [hok]
  · intro hok
    simp only [sync]
    rw [hok]

/-- A sync environment whose verifiers accept everything, used for
concrete evaluations. -/
def constSyncEnv : SyncEnv :=
  { tryFromGenesisProof := fun _ _ =>
      Except.ok { subtree_roots := [] },
    verifyLatestLiMatches := fun _ _ => Except.ok (),
    verifyAndRatchet := fun _ _ _ => Except.ok none }

/-- A concrete store whose trusted state carries an accumulator summary. -/
def syncStore : TrustedStateStore :=
  { trusted_state :=
      { epoch := 1, version := 10,
        accumulator_summary := some { subtree_roots := [] } } }

/-- A concrete step response whose epoch-change proof has a given more
flag. -/
def stepResponseWithMore (more : Bool) : StepResponse :=
  { consistencyProofResp := { subtrees := [] },
    consistencyState := metadataAt 10 0,
    stateProof :=
      { latest_ledger_info :=
          { ledger_info :=
              { version := 10, transaction_accumulator_hash := sampleHash 1,
                consensus_data_hash := sampleHash 2,
                consensus_block_id := sampleHash 3,
                epoch_num := 1, timestamp_usecs := 0 },
            signatures := [] },
        epoch_changes := { ledger_info_with_sigs := [], more := more } },
    stateProofState := metadataAt 10 0 }

/-- Witness for C3: a concrete final step (more = false) and a concrete
continuing step (more = true). -/
theorem sync_iterates_while_more_witness :
    ((syncOneStep constSyncEnv (fun _ => true) syncStore
        (stepResponseWithMore false)).requests =
      if (syncStore.trusted_state).accumulator_summary.isNone then
        [MethodRequest.get_accumulator_consistency_proof none
          (some (syncStore.trusted_state).version),
         MethodRequest.get_state_proof (syncStore.trusted_state).version]
      else
        [MethodRequest.get_state_proof (syncStore.trusted_state).version]) ∧
    false = (stepResponseWithMore false).stateProof.epoch_changes.more ∧
    sync constSyncEnv (fun _ => true) syncStore
        [stepResponseWithMore false] = (Except.ok syncStore, 1) ∧
    sync constSyncEnv (fun _ => true) syncStore
        [stepResponseWithMore true] =
      ((sync constSyncEnv (fun _ => true) syncStore []).1,
        (sync constSyncEnv (fun _ => true) syncStore []).2 + 1) :=
  ⟨(sync_iterates_while_more constSyncEnv (fun _ => true) syncStore
      (stepResponseWithMore false) [] false syncStore).1,
    (sync_iterates_while_more constSyncEnv (fun _ => true) syncStore
      (stepResponseWithMore false) [] false syncStore).2.1 rfl,
    (sync_iterates_while_more constSyncEnv (fun _ => true) syncStore
      (stepResponseWithMore false) [] false syncStore).2.2.1 rfl,
    (sync_iterates_while_more constSyncEnv (fun _ => true) syncStore
      (stepResponseWithMore true) [] true syncStore).2.2.2 rfl⟩
